import Mathlib

/-!
Shallow embedding of the `PlinkoGame` Solidity contract
(`contracts/PlinkoGame.sol` of the Plinko-Emoji-fhe repository) and proofs
about its entry points.

Modelling conventions:
- `uint256` values are `Nat`; Solidity 0.8 checked arithmetic is modelled by
  guarding every addition/multiplication of the contract with `< WORD`
  (where `WORD = 2^256`) and reverting (`none`) when the check fails.
- Each external mutating function is a pure function from the contract state
  and the call context (`msg.sender`, `block.timestamp`, `msg.value`,
  arguments) to `Option (State × List Event)`; `none` is a revert, which on
  the EVM rolls back every state change and every emitted event.
- The encrypted `euint32 totalScore` is modelled by its plaintext value
  modulo `2^32` (FHE.add on euint32 wraps); the zero-knowledge proof check
  performed by `FHE.fromExternal` is modelled by a boolean `proofValid`
  supplied by the confidential-compute layer.
- Addresses are `Nat`, with `0` as the zero address.
-/

namespace Plinko

/-- Ethereum addresses, modelled as naturals; `0` is the zero address. -/
abbrev Addr := Nat

/-- `2^256`: checked `uint256` arithmetic reverts when a result reaches it. -/
def WORD : Nat := 2 ^ 256

/-- `TURN_PRICE = 0.001 ether`, in wei. -/
def TURN_PRICE : Nat := 10 ^ 15

/-- `DAILY_FREE_TURNS = 3`. -/
def DAILY_FREE_TURNS : Nat := 3

/-- `SECONDS_PER_DAY = 86400`. -/
def SECONDS_PER_DAY : Nat := 86400

/-- `2^32`: `euint32` addition wraps modulo this. -/
def U32 : Nat := 2 ^ 32

/-- The `Player` struct of the contract. -/
structure Player where
  totalScore : Nat
  lastCheckInTime : Nat
  availableTurns : Nat
  gamesPlayed : Nat
deriving Repr, DecidableEq

instance : Inhabited Player := ⟨⟨0, 0, 0, 0⟩⟩

/-- The `LeaderboardEntry` struct of the contract. -/
structure LeaderboardEntry where
  playerAddress : Addr
  gamesPlayed : Nat
deriving Repr, DecidableEq

instance : Inhabited LeaderboardEntry := ⟨⟨0, 0⟩⟩

/-- The contract storage: the `players` mapping (total, with the Solidity
zero-valued default for absent keys), the `playerAddresses` array, the
`owner`, and the contract's native-currency balance. -/
structure State where
  players : Addr → Player
  playerAddresses : List Addr
  owner : Addr
  balance : Nat

/-- The events declared by the contract. -/
inductive Event where
  | CheckedIn (player : Addr) (turnsGranted ts : Nat)
  | TurnsPurchased (player : Addr) (turnsBought amountPaid : Nat)
  | GamePlayed (player : Addr) (turnsRemaining : Nat)
  | ScoreUpdated (player : Addr) (gamesPlayed : Nat)
  | Withdrawal (ownerAddr : Addr) (amount : Nat)
deriving Repr, DecidableEq

/-- State right after the constructor ran with `msg.sender = deployer`. -/
def initState (deployer : Addr) : State :=
  { players := fun _ => default
    playerAddresses := []
    owner := deployer
    balance := 0 }

/-- Write one slot of the `players` mapping. -/
def setPlayer (s : State) (a : Addr) (p : Player) : State :=
  { s with players := fun x => if x = a then p else s.players x }

/-- `dailyCheckIn()`.  Reverts (`none`) unless
`block.timestamp ≥ lastCheckInTime + SECONDS_PER_DAY` (the addition itself
being checked); first-time players (`lastCheckInTime == 0`) are pushed onto
`playerAddresses`; grants `DAILY_FREE_TURNS` and stamps the check-in time. -/
def dailyCheckIn (s : State) (sender : Addr) (ts : Nat) :
    Option (State × List Event) :=
  let player := s.players sender
  if player.lastCheckInTime + SECONDS_PER_DAY < WORD then
    if player.lastCheckInTime + SECONDS_PER_DAY ≤ ts then
      let s1 :=
        if player.lastCheckInTime = 0 then
          { s with playerAddresses := s.playerAddresses ++ [sender] }
        else s
      if player.availableTurns + DAILY_FREE_TURNS < WORD then
        some (setPlayer s1 sender
                { player with
                    availableTurns := player.availableTurns + DAILY_FREE_TURNS
                    lastCheckInTime := ts },
              [Event.CheckedIn sender DAILY_FREE_TURNS ts])
      else none
    else none
  else none

/-- `buyTurns(turnCount)` with `msg.value = value`.  Requires a positive
count and an exact payment of `turnCount * TURN_PRICE` (the multiplication
being checked); first-time players are pushed onto `playerAddresses` and
marked with the sentinel `lastCheckInTime = 1`. -/
def buyTurns (s : State) (sender : Addr) (turnCount value : Nat) :
    Option (State × List Event) :=
  if 0 < turnCount then
    if turnCount * TURN_PRICE < WORD then
      if value = turnCount * TURN_PRICE then
        let player := s.players sender
        let s1 :=
          if player.lastCheckInTime = 0 then
            setPlayer { s with playerAddresses := s.playerAddresses ++ [sender] }
              sender { player with lastCheckInTime := 1 }
          else s
        let p1 := s1.players sender
        if p1.availableTurns + turnCount < WORD then
          some ({ setPlayer s1 sender
                    { p1 with availableTurns := p1.availableTurns + turnCount }
                    with balance := s.balance + value },
                [Event.TurnsPurchased sender turnCount value])
        else none
      else none
    else none
  else none

/-- `dropBall(encryptedScore, inputProof)`.  Requires an available turn;
`FHE.fromExternal` reverts when the proof is invalid (`proofValid = false`);
adds the score homomorphically (mod `2^32`), spends one turn and counts the
game (the `gamesPlayed` increment being checked arithmetic). -/
def dropBall (s : State) (sender : Addr) (score : Nat) (proofValid : Bool) :
    Option (State × List Event) :=
  let player := s.players sender
  if 0 < player.availableTurns then
    if proofValid then
      if player.gamesPlayed + 1 < WORD then
        some (setPlayer s sender
                { player with
                    totalScore := (player.totalScore + score) % U32
                    availableTurns := player.availableTurns - 1
                    gamesPlayed := player.gamesPlayed + 1 },
              [Event.GamePlayed sender (player.availableTurns - 1),
               Event.ScoreUpdated sender (player.gamesPlayed + 1)])
      else none
    else none
  else none

/-- `playTurn()`: the plain variant of a play, without the encrypted score. -/
def playTurn (s : State) (sender : Addr) : Option (State × List Event) :=
  let player := s.players sender
  if 0 < player.availableTurns then
    if player.gamesPlayed + 1 < WORD then
      some (setPlayer s sender
              { player with
                  availableTurns := player.availableTurns - 1
                  gamesPlayed := player.gamesPlayed + 1 },
            [Event.GamePlayed sender (player.availableTurns - 1),
             Event.ScoreUpdated sender (player.gamesPlayed + 1)])
    else none
  else none

/-- `withdraw()`: owner-only, requires a positive balance, transfers all. -/
def withdraw (s : State) (sender : Addr) : Option (State × List Event) :=
  if sender = s.owner then
    if 0 < s.balance then
      some ({ s with balance := 0 }, [Event.Withdrawal s.owner s.balance])
    else none
  else none

/-- `transferOwnership(newOwner)`: owner-only, rejects the zero address. -/
def transferOwnership (s : State) (sender newOwner : Addr) :
    Option (State × List Event) :=
  if sender = s.owner then
    if newOwner ≠ 0 then
      some ({ s with owner := newOwner }, [])
    else none
  else none

/-- `getPlayerInfo(addr)`: `(lastCheckInTime, availableTurns, gamesPlayed)`. -/
def getPlayerInfo (s : State) (a : Addr) : Nat × Nat × Nat :=
  ((s.players a).lastCheckInTime, (s.players a).availableTurns,
   (s.players a).gamesPlayed)

/-- `canCheckIn(addr)`: `block.timestamp >= lastCheckInTime + SECONDS_PER_DAY`. -/
def canCheckIn (s : State) (a : Addr) (ts : Nat) : Bool :=
  (s.players a).lastCheckInTime + SECONDS_PER_DAY ≤ ts

/-- `getTotalPlayers()`. -/
def getTotalPlayers (s : State) : Nat :=
  s.playerAddresses.length

/-- `getPlayerScore(addr)` (the plaintext behind the ciphertext handle). -/
def getPlayerScore (s : State) (a : Addr) : Nat :=
  (s.players a).totalScore

/-- The swap `temp = lb[i]; lb[i] = lb[j]; lb[j] = temp` on a list. -/
def swapL (l : List LeaderboardEntry) (i j : Nat) : List LeaderboardEntry :=
  (l.set i (l.getD j default)).set j (l.getD i default)

/-- The inner loop `for (j = i+1; j < n; j++) if (lb[i].gamesPlayed <
lb[j].gamesPlayed) swap(i, j)` of `getLeaderboard`, compiled with an explicit
iteration count `fuel` (the loop runs while `j < l.length`, so any
`fuel ≥ l.length - j` is exact). -/
def sortPassF : Nat → List LeaderboardEntry → Nat → Nat → List LeaderboardEntry
  | 0, l, _, _ => l
  | fuel + 1, l, i, j =>
      if j < l.length then
        sortPassF fuel
          (if (l.getD i default).gamesPlayed < (l.getD j default).gamesPlayed
            then swapL l i j else l) i (j + 1)
      else l

/-- The outer loop `for (i = 0; i < n; i++)` of `getLeaderboard`'s sort. -/
def sortLoopF : Nat → List LeaderboardEntry → Nat → List LeaderboardEntry
  | 0, l, _ => l
  | fuel + 1, l, i =>
      if i < l.length then
        sortLoopF fuel (sortPassF (l.length - (i + 1)) l i (i + 1)) (i + 1)
      else l

/-- The unsorted entry array `getLeaderboard` builds from `playerAddresses`. -/
def mkEntries (s : State) : List LeaderboardEntry :=
  s.playerAddresses.map (fun a => ⟨a, (s.players a).gamesPlayed⟩)

/-- `getLeaderboard()`: one entry per registry element, then the in-place
exchange sort of the contract. -/
def getLeaderboard (s : State) : List LeaderboardEntry :=
  sortLoopF (mkEntries s).length (mkEntries s) 0

/-- One external call: the constructor argument pattern of every mutating
entry point of the contract, with the call context it observes. -/
inductive Op where
  | checkIn (sender : Addr) (ts : Nat)
  | buy (sender : Addr) (turnCount value : Nat)
  | play (sender : Addr)
  | drop (sender : Addr) (score : Nat) (proofValid : Bool)
  | withdrawOp (sender : Addr)
  | transferOwn (sender newOwner : Addr)
deriving Repr, DecidableEq

/-- `msg.sender` of a call. -/
def Op.sender : Op → Addr
  | .checkIn a _ => a
  | .buy a _ _ => a
  | .play a => a
  | .drop a _ _ => a
  | .withdrawOp a => a
  | .transferOwn a _ => a

/-- Dispatch a call to the entry point it names. -/
def runOp (s : State) : Op → Option (State × List Event)
  | .checkIn a ts => dailyCheckIn s a ts
  | .buy a c v => buyTurns s a c v
  | .play a => playTurn s a
  | .drop a sc ok => dropBall s a sc ok
  | .withdrawOp a => withdraw s a
  | .transferOwn a n => transferOwnership s a n

/-- EVM transaction semantics of a call: a revert rolls back to the caller's
state and emits nothing. -/
def stepEv (s : State) (op : Op) : State × List Event :=
  match runOp s op with
  | some r => r
  | none => (s, [])

/-- The state after a call (reverted or not). -/
def step (s : State) (op : Op) : State :=
  (stepEv s op).1

/-- Run a sequence of calls. -/
def exec (s : State) (ops : List Op) : State :=
  ops.foldl step s

/-- A state is reachable when some call sequence produces it from a freshly
deployed contract. -/
def Reachable (s : State) : Prop :=
  ∃ deployer ops, exec (initState deployer) ops = s

/-- `gamesPlayed` of the entry at position `k`. -/
def gp (l : List LeaderboardEntry) (k : Nat) : Nat :=
  (l.getD k default).gamesPlayed

/-- The first `i` positions are pairwise sorted by descending `gamesPlayed`. -/
def SortedTo (l : List LeaderboardEntry) (i : Nat) : Prop :=
  ∀ m n, m < n → n < i → n < l.length → gp l n ≤ gp l m

/-- Every one of the first `i` positions dominates every later element. -/
def DomTo (l : List LeaderboardEntry) (i : Nat) : Prop :=
  ∀ m, m < i → ∀ x ∈ l.drop i, x.gamesPlayed ≤ gp l m

/-- The registry/`players`-mapping invariant every reachable state enjoys:
the registry is duplicate-free, lists exactly the addresses with a nonzero
`lastCheckInTime`, and a zero `lastCheckInTime` forces zero turns and zero
games. -/
def Inv (s : State) : Prop :=
  s.playerAddresses.Nodup ∧
  (∀ a : Addr, a ∈ s.playerAddresses ↔ (s.players a).lastCheckInTime ≠ 0) ∧
  (∀ a : Addr, (s.players a).lastCheckInTime = 0 →
    (s.players a).availableTurns = 0 ∧ (s.players a).gamesPlayed = 0)

/-- `op` is a `dailyCheckIn` call by `a` that succeeds in state `s`. -/
def isSuccCheckIn (s : State) (a : Addr) : Op → Prop
  | .checkIn b ts => b = a ∧ (dailyCheckIn s b ts).isSome
  | _ => False

/-- Along the run of `ops` from `s`, no successful check-in by `a` occurs. -/
def NoSuccCheckIn (a : Addr) : State → List Op → Prop
  | _, [] => True
  | s, op :: rest => ¬ isSuccCheckIn s a op ∧ NoSuccCheckIn a (step s op) rest

/-- A concrete registered player: address 1 checked in at time 86400. -/
def demoState : State := exec (initState 0) [Op.checkIn 1 86400]

/-- `demoState` after address 1 played one turn. -/
def demoPlayed : State := step demoState (Op.play 1)

/-- A concrete purchase-only account: address 1 bought one turn. -/
def buyState : State := step (initState 0) (Op.buy 1 1 TURN_PRICE)

/-- `demoState` after a second check-in of address 1 at time 172800. -/
def demoCheck2 : State := step demoState (Op.checkIn 1 172800)

/-- Two registered players, the second of whom has played once. -/
def twoState : State :=
  exec (initState 0) [Op.checkIn 1 86400, Op.checkIn 2 86400, Op.play 2]

/-- Four players with `gamesPlayed` 2, 3, 2, 3 in registry order: the
scenario on which the exchange sort reorders a tie. -/
def opsC5 : List Op :=
  [Op.checkIn 1 86400, Op.checkIn 2 86400, Op.checkIn 3 86400, Op.checkIn 4 86400,
   Op.play 1, Op.play 1,
   Op.play 2, Op.play 2, Op.play 2,
   Op.play 3, Op.play 3,
   Op.play 4, Op.play 4, Op.play 4]

/-- The state reached by `opsC5`. -/
def stateC5 : State := exec (initState 0) opsC5

@[simp] theorem setPlayer_players_self (s : State) (a : Addr) (p : Player) :
    (setPlayer s a p).players a = p := by
  simp [setPlayer]

@[simp] theorem setPlayer_players_ne (s : State) (a b : Addr) (p : Player)
    (h : b ≠ a) : (setPlayer s a p).players b = s.players b := by
  simp [setPlayer, h]

@[simp] theorem setPlayer_playerAddresses (s : State) (a : Addr) (p : Player) :
    (setPlayer s a p).playerAddresses = s.playerAddresses := rfl

@[simp] theorem setPlayer_owner (s : State) (a : Addr) (p : Player) :
    (setPlayer s a p).owner = s.owner := rfl

@[simp] theorem setPlayer_balance (s : State) (a : Addr) (p : Player) :
    (setPlayer s a p).balance = s.balance := rfl

theorem list_getD_set_self {α : Type} (l : List α) (n : Nat) (v d : α)
    (h : n < l.length) : (l.set n v).getD n d = v := by
  induction l generalizing n with
  | nil => simp at h
  | cons x t ih =>
    cases n with
    | zero => simp
    | succ m => simpa using ih m (by simpa using h)

theorem list_getD_set_ne {α : Type} (l : List α) (n m : Nat) (v d : α)
    (h : n ≠ m) : (l.set n v).getD m d = l.getD m d := by
  induction l generalizing n m with
  | nil => simp
  | cons x t ih =>
    cases n with
    | zero =>
      cases m with
      | zero => exact absurd rfl h
      | succ k => simp
    | succ j =>
      cases m with
      | zero => simp
      | succ k => simpa using ih j k (by omega)

theorem list_getD_drop {α : Type} (l : List α) (i k : Nat) (d : α) :
    (l.drop i).getD k d = l.getD (i + k) d := by
  induction l generalizing i with
  | nil => simp
  | cons x t ih =>
    cases i with
    | zero => simp
    | succ j => rw [Nat.succ_add]; exact ih j

theorem list_getD_mem {α : Type} (l : List α) (n : Nat) (d : α)
    (h : n < l.length) : l.getD n d ∈ l := by
  induction l generalizing n with
  | nil => simp at h
  | cons x t ih =>
    cases n with
    | zero => simp
    | succ m => exact List.mem_cons_of_mem x (ih m (by simpa using h))

theorem list_mem_getD {α : Type} (l : List α) (x d : α) (h : x ∈ l) :
    ∃ n, n < l.length ∧ l.getD n d = x := by
  induction l with
  | nil => simp at h
  | cons y t ih =>
    rcases List.mem_cons.mp h with h1 | h2
    · exact ⟨0, by simp, by simp [h1]⟩
    · obtain ⟨n, hn, he⟩ := ih h2
      exact ⟨n + 1, by simpa using hn, by simpa using he⟩

theorem list_drop_set {α : Type} (l : List α) (m n : Nat) (v : α)
    (h : m ≤ n) : (l.set n v).drop m = (l.drop m).set (n - m) v := by
  induction l generalizing m n with
  | nil => simp
  | cons x t ih =>
    cases m with
    | zero => simp
    | succ k =>
      cases n with
      | zero => omega
      | succ j => simpa [Nat.succ_sub_succ] using ih k j (by omega)

theorem perm_getD_cons_set {α : Type} (t : List α) (k : Nat) (x d : α)
    (h : k < t.length) : (t.getD k d :: t.set k x).Perm (x :: t) := by
  induction t generalizing k with
  | nil => simp at h
  | cons a t' ih =>
    cases k with
    | zero => simpa using List.Perm.swap x a t'
    | succ m =>
      simp only [List.getD_cons_succ, List.set_cons_succ]
      refine (List.Perm.swap _ _ _).trans ?_
      exact ((ih m (by simpa using h)).cons a).trans (List.Perm.swap _ _ _)

@[simp] theorem swapL_length (l : List LeaderboardEntry) (i j : Nat) :
    (swapL l i j).length = l.length := by
  simp [swapL]

theorem swapL_getD_fst (l : List LeaderboardEntry) (i j : Nat)
    (hi : i < l.length) (hij : i ≠ j) :
    (swapL l i j).getD i default = l.getD j default := by
  unfold swapL
  rw [list_getD_set_ne _ j i _ _ (Ne.symm hij), list_getD_set_self _ i _ _ hi]

theorem swapL_getD_snd (l : List LeaderboardEntry) (i j : Nat)
    (hj : j < l.length) :
    (swapL l i j).getD j default = l.getD i default := by
  unfold swapL
  rw [list_getD_set_self _ j _ _ (by rw [List.length_set]; exact hj)]

theorem swapL_getD_other (l : List LeaderboardEntry) (i j k : Nat) (d : LeaderboardEntry)
    (hki : k ≠ i) (hkj : k ≠ j) :
    (swapL l i j).getD k d = l.getD k d := by
  unfold swapL
  rw [list_getD_set_ne _ j k _ _ (Ne.symm hkj), list_getD_set_ne _ i k _ _ (Ne.symm hki)]

theorem swapL_perm : ∀ (l : List LeaderboardEntry) (i j : Nat), i < j →
    j < l.length → (swapL l i j).Perm l := by
  intro l
  induction l with
  | nil => intro i j hij hj; simp at hj
  | cons x t ih =>
    intro i j hij hj
    cases j with
    | zero => omega
    | succ k =>
      cases i with
      | zero =>
        simp only [swapL, List.getD_cons_succ, List.getD_cons_zero,
          List.set_cons_succ, List.set_cons_zero]
        exact perm_getD_cons_set t k x default (by simpa using hj)
      | succ m =>
        have hk : k < t.length := by simpa using hj
        simp only [swapL, List.getD_cons_succ, List.set_cons_succ]
        exact (ih m k (by omega) hk).cons x

theorem swapL_drop (l : List LeaderboardEntry) (i j : Nat) (hij : i < j) :
    (swapL l i j).drop i = swapL (l.drop i) 0 (j - i) := by
  unfold swapL
  rw [list_drop_set _ i j _ (by omega), list_drop_set _ i i _ le_rfl]
  rw [list_getD_drop l i (j - i) default, list_getD_drop l i 0 default]
  have h1 : i + (j - i) = j := by omega
  simp [h1]

theorem swapL_drop_perm (l : List LeaderboardEntry) (i j : Nat)
    (hij : i < j) (hj : j < l.length) :
    ((swapL l i j).drop i).Perm (l.drop i) := by
  rw [swapL_drop l i j hij]
  exact swapL_perm (l.drop i) 0 (j - i) (by omega) (by simp; omega)

theorem sortPassF_length : ∀ (f : Nat) (l : List LeaderboardEntry) (i j : Nat),
    (sortPassF f l i j).length = l.length := by
  intro f
  induction f with
  | zero => intro l i j; rfl
  | succ f ih =>
    intro l i j
    simp only [sortPassF]
    split
    · rw [ih]
      split <;> simp
    · rfl

theorem sortPassF_getD_frozen : ∀ (f : Nat) (l : List LeaderboardEntry)
    (i j k : Nat) (d : LeaderboardEntry), k ≠ i → k < j →
    (sortPassF f l i j).getD k d = l.getD k d := by
  intro f
  induction f with
  | zero => intro l i j k d _ _; rfl
  | succ f ih =>
    intro l i j k d hki hkj
    simp only [sortPassF]
    split
    · rw [ih _ i (j + 1) k d hki (by omega)]
      split
      · exact swapL_getD_other l i j k d hki (by omega)
      · rfl
    · rfl

theorem sortPassF_perm : ∀ (f : Nat) (l : List LeaderboardEntry) (i j : Nat),
    i < j → (sortPassF f l i j).Perm l := by
  intro f
  induction f with
  | zero => intro l i j _; exact List.Perm.refl l
  | succ f ih =>
    intro l i j hij
    simp only [sortPassF]
    split
    · rename_i hj
      refine (ih _ i (j + 1) (by omega)).trans ?_
      split
      · rename_i hcond
        exact swapL_perm l i j hij hj
      · exact List.Perm.refl l
    · exact List.Perm.refl l

theorem sortPassF_drop_perm : ∀ (f : Nat) (l : List LeaderboardEntry) (i j : Nat),
    i < j → ((sortPassF f l i j).drop i).Perm (l.drop i) := by
  intro f
  induction f with
  | zero => intro l i j _; exact List.Perm.refl _
  | succ f ih =>
    intro l i j hij
    simp only [sortPassF]
    split
    · rename_i hj
      refine (ih _ i (j + 1) (by omega)).trans ?_
      split
      · rename_i hcond
        exact swapL_drop_perm l i j hij hj
      · exact List.Perm.refl _
    · exact List.Perm.refl _

theorem sortPassF_max : ∀ (f : Nat) (l : List LeaderboardEntry) (i j : Nat),
    i < j → l.length ≤ j + f →
    (∀ k, i < k → k < j → gp l k ≤ gp l i) →
    ∀ k, i < k → k < l.length →
    gp (sortPassF f l i j) k ≤ gp (sortPassF f l i j) i := by
  intro f
  induction f with
  | zero =>
    intro l i j hij hlen hmax k hik hk
    exact hmax k hik (by omega)
  | succ f ih =>
    intro l i j hij hlen hmax k hik hk
    simp only [sortPassF]
    split
    · rename_i hj
      have key : ∀ (l' : List LeaderboardEntry), l'.length = l.length →
          (∀ k', i < k' → k' < j + 1 → gp l' k' ≤ gp l' i) →
          gp (sortPassF f l' i (j + 1)) k ≤ gp (sortPassF f l' i (j + 1)) i := by
        intro l' hlen' hmax'
        exact ih l' i (j + 1) (by omega) (by omega) hmax' k hik (by omega)
      split
      · rename_i hcond
        refine key (swapL l i j) (by simp) ?_
        intro k' hik' hk'
        have hgi : gp (swapL l i j) i = gp l j :=
          congrArg LeaderboardEntry.gamesPlayed
            (swapL_getD_fst l i j (by omega) (by omega))
        rcases Nat.lt_or_ge k' j with hlt | hge
        · have heq : gp (swapL l i j) k' = gp l k' :=
            congrArg LeaderboardEntry.gamesPlayed
              (swapL_getD_other l i j k' default (by omega) (by omega))
          rw [heq, hgi]
          exact le_trans (hmax k' hik' hlt) (Nat.le_of_lt hcond)
        · have hkj : k' = j := by omega
          have heq : gp (swapL l i j) k' = gp l i := by
            rw [hkj]
            exact congrArg LeaderboardEntry.gamesPlayed (swapL_getD_snd l i j hj)
          rw [heq, hgi]
          exact Nat.le_of_lt hcond
      · rename_i hcond
        refine key l rfl ?_
        intro k' hik' hk'
        rcases Nat.lt_or_ge k' j with hlt | hge
        · exact hmax k' hik' hlt
        · have hkj : k' = j := by omega
          subst hkj
          exact Nat.le_of_not_lt hcond
    · exact hmax k hik (by omega)

theorem sortLoopF_sorted : ∀ (f : Nat) (l : List LeaderboardEntry) (i : Nat),
    l.length ≤ i + f → SortedTo l i → DomTo l i →
    ∀ m n, m < n → n < (sortLoopF f l i).length →
    gp (sortLoopF f l i) n ≤ gp (sortLoopF f l i) m := by
  intro f
  induction f with
  | zero =>
    intro l i hlen hsort _ m n hmn hn
    simp only [sortLoopF] at hn ⊢
    exact hsort m n hmn (by omega) hn
  | succ f ih =>
    intro l i hlen hsort hdom m n hmn hn
    simp only [sortLoopF]
    split
    · rename_i hi
      set l1 := sortPassF (l.length - (i + 1)) l i (i + 1) with hl1
      have hlen1 : l1.length = l.length := sortPassF_length _ l i (i + 1)
      have hfrozen : ∀ k d, k < i → l1.getD k d = l.getD k d := by
        intro k d hk
        exact sortPassF_getD_frozen _ l i (i + 1) k d (by omega) (by omega)
      have hgfrozen : ∀ k, k < i → gp l1 k = gp l k := by
        intro k hk; exact congrArg LeaderboardEntry.gamesPlayed (hfrozen k default hk)
      have hdropperm : (l1.drop i).Perm (l.drop i) :=
        sortPassF_drop_perm _ l i (i + 1) (by omega)
      have hmax : ∀ k, i < k → k < l1.length → gp l1 k ≤ gp l1 i := by
        intro k hik hk
        exact sortPassF_max _ l i (i + 1) (by omega) (by omega)
          (by intro k' h1 h2; omega) k hik (by omega)
      have hheadmem : l1.getD i default ∈ l.drop i := by
        have h0 : (l1.drop i).getD 0 default = l1.getD i default := by
          rw [list_getD_drop]
          rfl
        have hmem : (l1.drop i).getD 0 default ∈ l1.drop i := by
          apply list_getD_mem
          simp [hlen1]
          omega
        rw [h0] at hmem
        exact hdropperm.mem_iff.mp hmem
      have hsort1 : SortedTo l1 (i + 1) := by
        intro m' n' hmn' hn' _
        rcases Nat.lt_or_ge n' i with hni | hni
        · rw [hgfrozen n' hni, hgfrozen m' (by omega)]
          exact hsort m' n' hmn' hni (by omega)
        · have hn'i : n' = i := by omega
          rw [hn'i, hgfrozen m' (by omega)]
          exact hdom m' (by omega) (l1.getD i default) hheadmem
      have hdom1 : DomTo l1 (i + 1) := by
        intro m' hm' x hx
        rcases Nat.lt_or_ge m' i with hmi | hmi
        · rw [hgfrozen m' hmi]
          have hx' : x ∈ l1.drop i := by
            have hsub : l1.drop (i + 1) ⊆ l1.drop i := by
              have : List.drop 1 (l1.drop i) = l1.drop (i + 1) := by
                rw [List.drop_drop]
              rw [← this]
              exact List.drop_subset 1 (l1.drop i)
            exact hsub hx
          exact hdom m' hmi x (hdropperm.mem_iff.mp hx')
        · have hm'i : m' = i := by omega
          rw [hm'i]
          obtain ⟨n0, hn0, hget⟩ := list_mem_getD (l1.drop (i + 1)) x default hx
          have hidx : l1.getD (i + 1 + n0) default = x := by
            rw [← list_getD_drop]; exact hget
          have hbound : i + 1 + n0 < l1.length := by
            have : (l1.drop (i + 1)).length = l1.length - (i + 1) := by simp
            omega
          have := hmax (i + 1 + n0) (by omega) hbound
          rw [show gp l1 (i + 1 + n0) = x.gamesPlayed from
            congrArg LeaderboardEntry.gamesPlayed hidx] at this
          exact this
      exact ih l1 (i + 1) (by omega) hsort1 hdom1 m n hmn
        (by simp only [sortLoopF] at hn; rw [if_pos hi] at hn; rw [← hl1] at hn; exact hn)
    · rename_i hi
      have hn' : n < l.length := by
        simp only [sortLoopF] at hn
        rw [if_neg hi] at hn
        exact hn
      exact hsort m n hmn (by omega) hn'

theorem sortLoopF_perm : ∀ (f : Nat) (l : List LeaderboardEntry) (i : Nat),
    (sortLoopF f l i).Perm l := by
  intro f
  induction f with
  | zero => intro l i; exact List.Perm.refl l
  | succ f ih =>
    intro l i
    simp only [sortLoopF]
    split
    · exact (ih _ (i + 1)).trans (sortPassF_perm _ l i (i + 1) (by omega))
    · exact List.Perm.refl l

theorem getLeaderboard_perm (s : State) :
    (getLeaderboard s).Perm (mkEntries s) :=
  sortLoopF_perm _ _ 0

theorem getLeaderboard_sorted (s : State) :
    ∀ m n, m < n → n < (getLeaderboard s).length →
    gp (getLeaderboard s) n ≤ gp (getLeaderboard s) m := by
  apply sortLoopF_sorted
  · omega
  · intro m n _ hn _
    omega
  · intro m hm
    omega

theorem dailyCheckIn_eq_some (s s' : State) (a ts : Nat) (ev : List Event)
    (hr : dailyCheckIn s a ts = some (s', ev)) :
    (s.players a).lastCheckInTime + SECONDS_PER_DAY ≤ ts ∧
    ev = [Event.CheckedIn a DAILY_FREE_TURNS ts] ∧
    s'.players a = { s.players a with
      availableTurns := (s.players a).availableTurns + DAILY_FREE_TURNS
      lastCheckInTime := ts } ∧
    (∀ b, b ≠ a → s'.players b = s.players b) ∧
    s'.owner = s.owner ∧
    s'.balance = s.balance ∧
    ((s.players a).lastCheckInTime = 0 →
      s'.playerAddresses = s.playerAddresses ++ [a]) ∧
    ((s.players a).lastCheckInTime ≠ 0 →
      s'.playerAddresses = s.playerAddresses) := by
  simp only [dailyCheckIn] at hr
  split_ifs at hr with h1 h2 h3 h4
  all_goals simp only [Option.some.injEq, Prod.mk.injEq] at hr
  · obtain ⟨hs, hev⟩ := hr
    subst hs
    subst hev
    refine ⟨h2, rfl, by simp, ?_, by simp [setPlayer], by simp [setPlayer], ?_, ?_⟩
    · intro b hb
      simp [setPlayer, hb]
    · intro _
      simp [setPlayer]
    · intro hne
      exact absurd h4 hne
  · obtain ⟨hs, hev⟩ := hr
    subst hs
    subst hev
    refine ⟨h2, rfl, by simp, ?_, by simp [setPlayer], by simp [setPlayer], ?_, ?_⟩
    · intro b hb
      simp [setPlayer, hb]
    · intro hz
      exact absurd hz h4
    · intro _
      simp [setPlayer]

theorem buyTurns_eq_some (s s' : State) (a c v : Nat) (ev : List Event)
    (hr : buyTurns s a c v = some (s', ev)) :
    0 < c ∧ v = c * TURN_PRICE ∧
    ev = [Event.TurnsPurchased a c v] ∧
    (s'.players a).availableTurns = (s.players a).availableTurns + c ∧
    (s'.players a).gamesPlayed = (s.players a).gamesPlayed ∧
    (s'.players a).totalScore = (s.players a).totalScore ∧
    (∀ b, b ≠ a → s'.players b = s.players b) ∧
    s'.owner = s.owner ∧
    s'.balance = s.balance + v ∧
    ((s.players a).lastCheckInTime = 0 →
      (s'.players a).lastCheckInTime = 1 ∧
      s'.playerAddresses = s.playerAddresses ++ [a]) ∧
    ((s.players a).lastCheckInTime ≠ 0 →
      (s'.players a).lastCheckInTime = (s.players a).lastCheckInTime ∧
      s'.playerAddresses = s.playerAddresses) := by
  simp only [buyTurns] at hr
  split_ifs at hr with h1 h2 h3 h4 h5
  all_goals simp only [Option.some.injEq, Prod.mk.injEq] at hr
  all_goals obtain ⟨hs, hev⟩ := hr
  all_goals subst hs
  all_goals subst hev
  · refine ⟨h1, h3, rfl, by simp [setPlayer], by simp [setPlayer],
      by simp [setPlayer], ?_, by simp [setPlayer], by simp [setPlayer], ?_, ?_⟩
    · intro b hb
      simp [setPlayer, hb]
    · intro _
      simp [setPlayer]
    · intro hne
      exact absurd h4 hne
  · refine ⟨h1, h3, rfl, by simp [setPlayer], by simp [setPlayer],
      by simp [setPlayer], ?_, by simp [setPlayer], by simp [setPlayer], ?_, ?_⟩
    · intro b hb
      simp [setPlayer, hb]
    · intro hz
      exact absurd hz h4
    · intro _
      simp [setPlayer]

theorem playTurn_eq_some (s s' : State) (a : Nat) (ev : List Event)
    (hr : playTurn s a = some (s', ev)) :
    0 < (s.players a).availableTurns ∧
    ev = [Event.GamePlayed a ((s.players a).availableTurns - 1),
          Event.ScoreUpdated a ((s.players a).gamesPlayed + 1)] ∧
    s'.players a = { s.players a with
      availableTurns := (s.players a).availableTurns - 1
      gamesPlayed := (s.players a).gamesPlayed + 1 } ∧
    (∀ b, b ≠ a → s'.players b = s.players b) ∧
    s'.playerAddresses = s.playerAddresses ∧
    s'.owner = s.owner ∧
    s'.balance = s.balance := by
  simp only [playTurn] at hr
  split_ifs at hr with h1 h2
  all_goals simp only [Option.some.injEq, Prod.mk.injEq] at hr
  obtain ⟨hs, hev⟩ := hr
  subst hs
  subst hev
  refine ⟨h1, rfl, by simp, ?_, by simp [setPlayer], by simp [setPlayer],
    by simp [setPlayer]⟩
  intro b hb
  simp [setPlayer, hb]

theorem dropBall_eq_some (s s' : State) (a sc : Nat) (ok : Bool) (ev : List Event)
    (hr : dropBall s a sc ok = some (s', ev)) :
    0 < (s.players a).availableTurns ∧
    ok = true ∧
    ev = [Event.GamePlayed a ((s.players a).availableTurns - 1),
          Event.ScoreUpdated a ((s.players a).gamesPlayed + 1)] ∧
    s'.players a = { s.players a with
      totalScore := ((s.players a).totalScore + sc) % U32
      availableTurns := (s.players a).availableTurns - 1
      gamesPlayed := (s.players a).gamesPlayed + 1 } ∧
    (∀ b, b ≠ a → s'.players b = s.players b) ∧
    s'.playerAddresses = s.playerAddresses ∧
    s'.owner = s.owner ∧
    s'.balance = s.balance := by
  simp only [dropBall] at hr
  split_ifs at hr with h1 h2 h3
  all_goals simp only [Option.some.injEq, Prod.mk.injEq] at hr
  obtain ⟨hs, hev⟩ := hr
  subst hs
  subst hev
  refine ⟨h1, h2, rfl, by simp, ?_, by simp [setPlayer], by simp [setPlayer],
    by simp [setPlayer]⟩
  intro b hb
  simp [setPlayer, hb]

theorem withdraw_eq_some (s s' : State) (a : Nat) (ev : List Event)
    (hr : withdraw s a = some (s', ev)) :
    a = s.owner ∧ 0 < s.balance ∧
    ev = [Event.Withdrawal s.owner s.balance] ∧
    s' = { s with balance := 0 } := by
  simp only [withdraw] at hr
  split_ifs at hr with h1 h2
  all_goals simp only [Option.some.injEq, Prod.mk.injEq] at hr
  obtain ⟨hs, hev⟩ := hr
  exact ⟨h1, h2, hev.symm, hs.symm⟩

theorem transferOwnership_eq_some (s s' : State) (a n : Nat) (ev : List Event)
    (hr : transferOwnership s a n = some (s', ev)) :
    a = s.owner ∧ n ≠ 0 ∧ ev = [] ∧ s' = { s with owner := n } := by
  simp only [transferOwnership] at hr
  split_ifs at hr with h1 h2
  all_goals simp only [Option.some.injEq, Prod.mk.injEq] at hr
  obtain ⟨hs, hev⟩ := hr
  exact ⟨h1, h2, hev.symm, hs.symm⟩

theorem dailyCheckIn_none_of_early (s : State) (a ts : Nat)
    (h : ts < (s.players a).lastCheckInTime + SECONDS_PER_DAY) :
    dailyCheckIn s a ts = none := by
  simp only [dailyCheckIn]
  split_ifs <;> first | rfl | omega

theorem buyTurns_none_of_zero (s : State) (a v : Nat) :
    buyTurns s a 0 v = none := by
  simp [buyTurns]

theorem buyTurns_none_of_mismatch (s : State) (a c v : Nat)
    (h : v ≠ c * TURN_PRICE) : buyTurns s a c v = none := by
  simp only [buyTurns]
  split_ifs with h1 h2 <;> rfl

theorem playTurn_none_of_zero (s : State) (a : Nat)
    (h : (s.players a).availableTurns = 0) : playTurn s a = none := by
  simp [playTurn, h]

theorem dropBall_none_of_zero (s : State) (a sc : Nat) (ok : Bool)
    (h : (s.players a).availableTurns = 0) : dropBall s a sc ok = none := by
  simp [dropBall, h]

theorem withdraw_none_of_notOwner (s : State) (a : Nat) (h : a ≠ s.owner) :
    withdraw s a = none := by
  simp [withdraw, h]

theorem withdraw_none_of_zeroBalance (s : State) (a : Nat)
    (h : s.balance = 0) : withdraw s a = none := by
  simp [withdraw, h]

theorem transferOwnership_none_of_notOwner (s : State) (a n : Nat)
    (h : a ≠ s.owner) : transferOwnership s a n = none := by
  simp [transferOwnership, h]

theorem transferOwnership_none_of_zeroAddr (s : State) (a : Nat) :
    transferOwnership s a 0 = none := by
  simp [transferOwnership]

theorem dailyCheckIn_isSome_iff (s : State) (a ts : Nat)
    (hA : (s.players a).lastCheckInTime + SECONDS_PER_DAY < WORD)
    (hD : (s.players a).availableTurns + DAILY_FREE_TURNS < WORD) :
    (dailyCheckIn s a ts).isSome ↔
      (s.players a).lastCheckInTime + SECONDS_PER_DAY ≤ ts := by
  simp only [dailyCheckIn]
  split_ifs with h1 h2 <;> simp_all

theorem buyTurns_isSome_iff (s : State) (a c v : Nat) (hv : v < WORD)
    (ht : (s.players a).availableTurns + c < WORD) :
    (buyTurns s a c v).isSome ↔ 0 < c ∧ v = c * TURN_PRICE := by
  simp only [buyTurns]
  split_ifs with h1 h2 h3 h4 h5
  all_goals simp_all [setPlayer]
  all_goals omega

theorem playTurn_isSome_iff (s : State) (a : Nat)
    (hg : (s.players a).gamesPlayed + 1 < WORD) :
    (playTurn s a).isSome ↔ 0 < (s.players a).availableTurns := by
  simp only [playTurn]
  split_ifs with h1 <;> simp_all

theorem dropBall_isSome_iff (s : State) (a sc : Nat)
    (hg : (s.players a).gamesPlayed + 1 < WORD) :
    (dropBall s a sc true).isSome ↔ 0 < (s.players a).availableTurns := by
  simp only [dropBall]
  split_ifs with h1 <;> simp_all

@[simp] theorem runOp_checkIn (s : State) (a ts : Nat) :
    runOp s (Op.checkIn a ts) = dailyCheckIn s a ts := rfl

@[simp] theorem runOp_buy (s : State) (a c v : Nat) :
    runOp s (Op.buy a c v) = buyTurns s a c v := rfl

@[simp] theorem runOp_play (s : State) (a : Nat) :
    runOp s (Op.play a) = playTurn s a := rfl

@[simp] theorem runOp_drop (s : State) (a sc : Nat) (ok : Bool) :
    runOp s (Op.drop a sc ok) = dropBall s a sc ok := rfl

@[simp] theorem runOp_withdraw (s : State) (a : Nat) :
    runOp s (Op.withdrawOp a) = withdraw s a := rfl

@[simp] theorem runOp_transferOwn (s : State) (a n : Nat) :
    runOp s (Op.transferOwn a n) = transferOwnership s a n := rfl

theorem stepEv_eq_of_none (s : State) (op : Op) (h : runOp s op = none) :
    stepEv s op = (s, []) := by
  simp [stepEv, h]

theorem stepEv_eq_of_some (s : State) (op : Op) (s' : State) (ev : List Event)
    (h : runOp s op = some (s', ev)) : stepEv s op = (s', ev) := by
  simp [stepEv, h]

theorem step_eq_of_none (s : State) (op : Op) (h : runOp s op = none) :
    step s op = s := by
  simp [step, stepEv, h]

theorem step_eq_of_some (s : State) (op : Op) (s' : State) (ev : List Event)
    (h : runOp s op = some (s', ev)) : step s op = s' := by
  simp [step, stepEv, h]

@[simp] theorem exec_nil (s : State) : exec s [] = s := rfl

@[simp] theorem exec_cons (s : State) (op : Op) (ops : List Op) :
    exec s (op :: ops) = exec (step s op) ops := rfl

theorem step_players_other (s : State) (op : Op) (b : Addr)
    (hb : b ≠ op.sender) : (step s op).players b = s.players b := by
  cases op with
  | checkIn a ts =>
    cases hres : dailyCheckIn s a ts with
    | none => rw [step_eq_of_none s _ (by simp [hres])]
    | some r =>
      obtain ⟨s', ev⟩ := r
      rw [step_eq_of_some s _ s' ev (by simp [hres])]
      exact (dailyCheckIn_eq_some s s' a ts ev hres).2.2.2.1 b hb
  | buy a c v =>
    cases hres : buyTurns s a c v with
    | none => rw [step_eq_of_none s _ (by simp [hres])]
    | some r =>
      obtain ⟨s', ev⟩ := r
      rw [step_eq_of_some s _ s' ev (by simp [hres])]
      exact (buyTurns_eq_some s s' a c v ev hres).2.2.2.2.2.2.1 b hb
  | play a =>
    cases hres : playTurn s a with
    | none => rw [step_eq_of_none s _ (by simp [hres])]
    | some r =>
      obtain ⟨s', ev⟩ := r
      rw [step_eq_of_some s _ s' ev (by simp [hres])]
      exact (playTurn_eq_some s s' a ev hres).2.2.2.1 b hb
  | drop a sc ok =>
    cases hres : dropBall s a sc ok with
    | none => rw [step_eq_of_none s _ (by simp [hres])]
    | some r =>
      obtain ⟨s', ev⟩ := r
      rw [step_eq_of_some s _ s' ev (by simp [hres])]
      exact (dropBall_eq_some s s' a sc ok ev hres).2.2.2.2.1 b hb
  | withdrawOp a =>
    cases hres : withdraw s a with
    | none => rw [step_eq_of_none s _ (by simp [hres])]
    | some r =>
      obtain ⟨s', ev⟩ := r
      rw [step_eq_of_some s _ s' ev (by simp [hres])]
      rw [(withdraw_eq_some s s' a ev hres).2.2.2]
  | transferOwn a n =>
    cases hres : transferOwnership s a n with
    | none => rw [step_eq_of_none s _ (by simp [hres])]
    | some r =>
      obtain ⟨s', ev⟩ := r
      rw [step_eq_of_some s _ s' ev (by simp [hres])]
      rw [(transferOwnership_eq_some s s' a n ev hres).2.2.2]

theorem exec_players_other (ops : List Op) (s : State) (a : Addr)
    (h : ∀ op ∈ ops, op.sender ≠ a) :
    (exec s ops).players a = s.players a := by
  induction ops generalizing s with
  | nil => rfl
  | cons op rest ih =>
    rw [exec_cons]
    rw [ih (step s op) (fun o ho => h o (List.mem_cons_of_mem op ho))]
    exact step_players_other s op a
      (fun he => h op (List.mem_cons_self op rest) (he ▸ rfl))

theorem inv_init (d : Addr) : Inv (initState d) := by
  refine ⟨by simp [initState], ?_, ?_⟩
  · intro a
    simp [initState, default]
  · intro a _
    simp [initState, default]

theorem inv_dailyCheckIn (s s' : State) (a ts : Nat) (ev : List Event)
    (h : Inv s) (hr : dailyCheckIn s a ts = some (s', ev)) : Inv s' := by
  obtain ⟨hnd, hmem, hzero⟩ := h
  obtain ⟨hts, _, hpa, hpb, _, _, hreg0, hreg1⟩ :=
    dailyCheckIn_eq_some s s' a ts ev hr
  have hts0 : ts ≠ 0 := by
    have h86 : SECONDS_PER_DAY = 86400 := rfl
    omega
  have hlastA : (s'.players a).lastCheckInTime = ts := by
    rw [hpa]
  by_cases hz : (s.players a).lastCheckInTime = 0
  · have hreg := hreg0 hz
    have hanotin : a ∉ s.playerAddresses := fun hin => (hmem a).mp hin hz
    refine ⟨?_, ?_, ?_⟩
    · rw [hreg]
      refine List.nodup_append.mpr ⟨hnd, by simp, ?_⟩
      intro x hx hx'
      simp only [List.mem_singleton] at hx'
      subst hx'
      exact hanotin hx
    · intro b
      by_cases hb : b = a
      · subst hb
        rw [hreg, hlastA]
        simp [hts0]
      · rw [hreg, hpb b hb]
        constructor
        · intro hin
          rcases List.mem_append.mp hin with h1 | h1
          · exact (hmem b).mp h1
          · simp only [List.mem_singleton] at h1
            exact absurd h1 hb
        · intro hne
          exact List.mem_append.mpr (Or.inl ((hmem b).mpr hne))
    · intro b hb0
      by_cases hb : b = a
      · subst hb
        rw [hlastA] at hb0
        exact absurd hb0 hts0
      · rw [hpb b hb] at hb0 ⊢
        exact hzero b hb0
  · have hreg := hreg1 hz
    refine ⟨by rw [hreg]; exact hnd, ?_, ?_⟩
    · intro b
      by_cases hb : b = a
      · subst hb
        rw [hreg, hlastA]
        simp only [hts0, ne_eq, not_false_iff, iff_true]
        exact (hmem b).mpr hz
      · rw [hreg, hpb b hb]
        exact hmem b
    · intro b hb0
      by_cases hb : b = a
      · subst hb
        rw [hlastA] at hb0
        exact absurd hb0 hts0
      · rw [hpb b hb] at hb0 ⊢
        exact hzero b hb0

theorem inv_buyTurns (s s' : State) (a c v : Nat) (ev : List Event)
    (h : Inv s) (hr : buyTurns s a c v = some (s', ev)) : Inv s' := by
  obtain ⟨hnd, hmem, hzero⟩ := h
  obtain ⟨hc, _, _, hturns, hgames, _, hpb, _, _, hfst, hsnd⟩ :=
    buyTurns_eq_some s s' a c v ev hr
  by_cases hz : (s.players a).lastCheckInTime = 0
  · obtain ⟨hlastA, hreg⟩ := hfst hz
    have hanotin : a ∉ s.playerAddresses := fun hin => (hmem a).mp hin hz
    refine ⟨?_, ?_, ?_⟩
    · rw [hreg]
      refine List.nodup_append.mpr ⟨hnd, by simp, ?_⟩
      intro x hx hx'
      simp only [List.mem_singleton] at hx'
      subst hx'
      exact hanotin hx
    · intro b
      by_cases hb : b = a
      · subst hb
        rw [hreg, hlastA]
        simp
      · rw [hreg, hpb b hb]
        constructor
        · intro hin
          rcases List.mem_append.mp hin with h1 | h1
          · exact (hmem b).mp h1
          · simp only [List.mem_singleton] at h1
            exact absurd h1 hb
        · intro hne
          exact List.mem_append.mpr (Or.inl ((hmem b).mpr hne))
    · intro b hb0
      by_cases hb : b = a
      · subst hb
        rw [hlastA] at hb0
        exact absurd hb0 one_ne_zero
      · rw [hpb b hb] at hb0 ⊢
        exact hzero b hb0
  · obtain ⟨hlastA, hreg⟩ := hsnd hz
    refine ⟨by rw [hreg]; exact hnd, ?_, ?_⟩
    · intro b
      by_cases hb : b = a
      · subst hb
        rw [hreg, hlastA]
        simp only [hz, ne_eq, not_false_iff, iff_true]
        exact (hmem b).mpr hz
      · rw [hreg, hpb b hb]
        exact hmem b
    · intro b hb0
      by_cases hb : b = a
      · subst hb
        rw [hlastA] at hb0
        exact absurd hb0 hz
      · rw [hpb b hb] at hb0 ⊢
        exact hzero b hb0

theorem inv_playTurn (s s' : State) (a : Nat) (ev : List Event)
    (h : Inv s) (hr : playTurn s a = some (s', ev)) : Inv s' := by
  obtain ⟨hnd, hmem, hzero⟩ := h
  obtain ⟨hpos, _, hpa, hpb, hreg, _, _⟩ := playTurn_eq_some s s' a ev hr
  have hlast0 : (s.players a).lastCheckInTime ≠ 0 := by
    intro hz
    have := (hzero a hz).1
    omega
  have hlastA : (s'.players a).lastCheckInTime = (s.players a).lastCheckInTime := by
    rw [hpa]
  refine ⟨by rw [hreg]; exact hnd, ?_, ?_⟩
  · intro b
    by_cases hb : b = a
    · subst hb
      rw [hreg, hlastA]
      exact hmem b
    · rw [hreg, hpb b hb]
      exact hmem b
  · intro b hb0
    by_cases hb : b = a
    · subst hb
      rw [hlastA] at hb0
      exact absurd hb0 hlast0
    · rw [hpb b hb] at hb0 ⊢
      exact hzero b hb0

theorem inv_dropBall (s s' : State) (a sc : Nat) (ok : Bool) (ev : List Event)
    (h : Inv s) (hr : dropBall s a sc ok = some (s', ev)) : Inv s' := by
  obtain ⟨hnd, hmem, hzero⟩ := h
  obtain ⟨hpos, _, _, hpa, hpb, hreg, _, _⟩ := dropBall_eq_some s s' a sc ok ev hr
  have hlast0 : (s.players a).lastCheckInTime ≠ 0 := by
    intro hz
    have := (hzero a hz).1
    omega
  have hlastA : (s'.players a).lastCheckInTime = (s.players a).lastCheckInTime := by
    rw [hpa]
  refine ⟨by rw [hreg]; exact hnd, ?_, ?_⟩
  · intro b
    by_cases hb : b = a
    · subst hb
      rw [hreg, hlastA]
      exact hmem b
    · rw [hreg, hpb b hb]
      exact hmem b
  · intro b hb0
    by_cases hb : b = a
    · subst hb
      rw [hlastA] at hb0
      exact absurd hb0 hlast0
    · rw [hpb b hb] at hb0 ⊢
      exact hzero b hb0

theorem inv_withdraw (s s' : State) (a : Nat) (ev : List Event)
    (h : Inv s) (hr : withdraw s a = some (s', ev)) : Inv s' := by
  rw [(withdraw_eq_some s s' a ev hr).2.2.2]
  exact h

theorem inv_transferOwnership (s s' : State) (a n : Nat) (ev : List Event)
    (h : Inv s) (hr : transferOwnership s a n = some (s', ev)) : Inv s' := by
  rw [(transferOwnership_eq_some s s' a n ev hr).2.2.2]
  exact h

theorem inv_step (s : State) (op : Op) (h : Inv s) : Inv (step s op) := by
  cases op with
  | checkIn a ts =>
    cases hres : dailyCheckIn s a ts with
    | none => rw [step_eq_of_none s _ (by simp [hres])]; exact h
    | some r =>
      obtain ⟨s', ev⟩ := r
      rw [step_eq_of_some s _ s' ev (by simp [hres])]
      exact inv_dailyCheckIn s s' a ts ev h hres
  | buy a c v =>
    cases hres : buyTurns s a c v with
    | none => rw [step_eq_of_none s _ (by simp [hres])]; exact h
    | some r =>
      obtain ⟨s', ev⟩ := r
      rw [step_eq_of_some s _ s' ev (by simp [hres])]
      exact inv_buyTurns s s' a c v ev h hres
  | play a =>
    cases hres : playTurn s a with
    | none => rw [step_eq_of_none s _ (by simp [hres])]; exact h
    | some r =>
      obtain ⟨s', ev⟩ := r
      rw [step_eq_of_some s _ s' ev (by simp [hres])]
      exact inv_playTurn s s' a ev h hres
  | drop a sc ok =>
    cases hres : dropBall s a sc ok with
    | none => rw [step_eq_of_none s _ (by simp [hres])]; exact h
    | some r =>
      obtain ⟨s', ev⟩ := r
      rw [step_eq_of_some s _ s' ev (by simp [hres])]
      exact inv_dropBall s s' a sc ok ev h hres
  | withdrawOp a =>
    cases hres : withdraw s a with
    | none => rw [step_eq_of_none s _ (by simp [hres])]; exact h
    | some r =>
      obtain ⟨s', ev⟩ := r
      rw [step_eq_of_some s _ s' ev (by simp [hres])]
      exact inv_withdraw s s' a ev h hres
  | transferOwn a n =>
    cases hres : transferOwnership s a n with
    | none => rw [step_eq_of_none s _ (by simp [hres])]; exact h
    | some r =>
      obtain ⟨s', ev⟩ := r
      rw [step_eq_of_some s _ s' ev (by simp [hres])]
      exact inv_transferOwnership s s' a n ev h hres

theorem inv_exec (ops : List Op) (s : State) (h : Inv s) : Inv (exec s ops) := by
  induction ops generalizing s with
  | nil => exact h
  | cons op rest ih => exact ih (step s op) (inv_step s op h)

theorem reachable_inv (s : State) (h : Reachable s) : Inv s := by
  obtain ⟨d, ops, hs⟩ := h
  rw [← hs]
  exact inv_exec ops (initState d) (inv_init d)

theorem step_last_keep (s : State) (op : Op) (a : Addr)
    (hne : (s.players a).lastCheckInTime ≠ 0)
    (hnot : ¬ isSuccCheckIn s a op) :
    ((step s op).players a).lastCheckInTime = (s.players a).lastCheckInTime := by
  cases op with
  | checkIn b ts =>
    by_cases hb : b = a
    · subst hb
      cases hres : dailyCheckIn s b ts with
      | none => rw [step_eq_of_none s _ (by simp [hres])]
      | some r =>
        exact absurd ⟨rfl, by simp [hres]⟩ hnot
    · rw [step_players_other s _ a (by simpa [Op.sender] using Ne.symm hb)]
  | buy b c v =>
    by_cases hb : b = a
    · subst hb
      cases hres : buyTurns s b c v with
      | none => rw [step_eq_of_none s _ (by simp [hres])]
      | some r =>
        obtain ⟨s', ev⟩ := r
        rw [step_eq_of_some s _ s' ev (by simp [hres])]
        exact ((buyTurns_eq_some s s' b c v ev hres).2.2.2.2.2.2.2.2.2.2 hne).1
    · rw [step_players_other s _ a (by simpa [Op.sender] using Ne.symm hb)]
  | play b =>
    by_cases hb : b = a
    · subst hb
      cases hres : playTurn s b with
      | none => rw [step_eq_of_none s _ (by simp [hres])]
      | some r =>
        obtain ⟨s', ev⟩ := r
        rw [step_eq_of_some s _ s' ev (by simp [hres])]
        rw [(playTurn_eq_some s s' b ev hres).2.2.1]
    · rw [step_players_other s _ a (by simpa [Op.sender] using Ne.symm hb)]
  | drop b sc ok =>
    by_cases hb : b = a
    · subst hb
      cases hres : dropBall s b sc ok with
      | none => rw [step_eq_of_none s _ (by simp [hres])]
      | some r =>
        obtain ⟨s', ev⟩ := r
        rw [step_eq_of_some s _ s' ev (by simp [hres])]
        rw [(dropBall_eq_some s s' b sc ok ev hres).2.2.2.1]
    · rw [step_players_other s _ a (by simpa [Op.sender] using Ne.symm hb)]
  | withdrawOp b =>
    cases hres : withdraw s b with
    | none => rw [step_eq_of_none s _ (by simp [hres])]
    | some r =>
      obtain ⟨s', ev⟩ := r
      rw [step_eq_of_some s _ s' ev (by simp [hres])]
      rw [(withdraw_eq_some s s' b ev hres).2.2.2]
  | transferOwn b n =>
    cases hres : transferOwnership s b n with
    | none => rw [step_eq_of_none s _ (by simp [hres])]
    | some r =>
      obtain ⟨s', ev⟩ := r
      rw [step_eq_of_some s _ s' ev (by simp [hres])]
      rw [(transferOwnership_eq_some s s' b n ev hres).2.2.2]

theorem exec_last_keep (ops : List Op) (s : State) (a : Addr)
    (hne : (s.players a).lastCheckInTime ≠ 0)
    (hnot : NoSuccCheckIn a s ops) :
    ((exec s ops).players a).lastCheckInTime = (s.players a).lastCheckInTime := by
  induction ops generalizing s with
  | nil => rfl
  | cons op rest ih =>
    obtain ⟨h1, h2⟩ := hnot
    rw [exec_cons]
    have hkeep := step_last_keep s op a hne h1
    rw [ih (step s op) (by rw [hkeep]; exact hne) h2, hkeep]

theorem reachable_bridge (s : State) (hre : Reachable s) (a : Addr) :
    (s.players a).lastCheckInTime = 0 ↔ a ∉ s.playerAddresses := by
  have hmem := (reachable_inv s hre).2.1 a
  constructor
  · intro hz hin
    exact (hmem.mp hin) hz
  · intro hnin
    by_contra hne
    exact hnin (hmem.mpr hne)

/-- C1: for both play variants (`playTurn` and `dropBall`), success requires
`availableTurns > 0`; a successful call decrements the caller's
`availableTurns` by exactly 1 and increments the caller's `gamesPlayed` by
exactly 1; with `availableTurns = 0` the call reverts, leaving the whole
state unchanged and emitting no events. -/
theorem claim_C1 (s : State) (a sc : Nat) (ok : Bool) :
    (∀ s' ev, playTurn s a = some (s', ev) ∨ dropBall s a sc ok = some (s', ev) →
      0 < (s.players a).availableTurns ∧
      (s'.players a).availableTurns + 1 = (s.players a).availableTurns ∧
      (s'.players a).gamesPlayed = (s.players a).gamesPlayed + 1) ∧
    ((s.players a).availableTurns = 0 →
      playTurn s a = none ∧ dropBall s a sc ok = none ∧
      stepEv s (Op.play a) = (s, []) ∧ stepEv s (Op.drop a sc ok) = (s, [])) := by
  constructor
  · intro s' ev h
    rcases h with h | h
    · obtain ⟨hpos, _, hpa, _⟩ := playTurn_eq_some s s' a ev h
      have ht : (s'.players a).availableTurns = (s.players a).availableTurns - 1 := by
        rw [hpa]
      have hg : (s'.players a).gamesPlayed = (s.players a).gamesPlayed + 1 := by
        rw [hpa]
      exact ⟨hpos, by omega, hg⟩
    · obtain ⟨hpos, _, _, hpa, _⟩ := dropBall_eq_some s s' a sc ok ev h
      have ht : (s'.players a).availableTurns = (s.players a).availableTurns - 1 := by
        rw [hpa]
      have hg : (s'.players a).gamesPlayed = (s.players a).gamesPlayed + 1 := by
        rw [hpa]
      exact ⟨hpos, by omega, hg⟩
  · intro hz
    refine ⟨playTurn_none_of_zero s a hz, dropBall_none_of_zero s a sc ok hz,
      ?_, ?_⟩
    · exact stepEv_eq_of_none s _ (by simp [playTurn_none_of_zero s a hz])
    · exact stepEv_eq_of_none s _ (by simp [dropBall_none_of_zero s a sc ok hz])

/-- C1 witness: in the concrete reachable state `demoState` (3 turns),
`playTurn` succeeds and moves turns 3 → 2 and games 0 → 1. -/
theorem claim_C1_witness :
    0 < (demoState.players 1).availableTurns ∧
    (demoPlayed.players 1).availableTurns + 1 = (demoState.players 1).availableTurns ∧
    (demoPlayed.players 1).gamesPlayed = (demoState.players 1).gamesPlayed + 1 :=
  (claim_C1 demoState 1 0 true).1 demoPlayed
    [Event.GamePlayed 1 2, Event.ScoreUpdated 1 1] (Or.inl rfl)

/-- C2: `dailyCheckIn` succeeds exactly when the current time has reached
`lastCheckInTime + 86400` (under the no-overflow side conditions of checked
`uint256` arithmetic); success adds exactly 3 to `availableTurns`, stamps
`lastCheckInTime` with the current time, and appends the caller to the
registry exactly when this is the caller's first interaction (equivalently,
in a reachable state, when `lastCheckInTime = 0`); otherwise the call
reverts with no state change and no events. -/
theorem claim_C2 (s : State) (a ts : Nat)
    (hov1 : (s.players a).lastCheckInTime + SECONDS_PER_DAY < WORD)
    (hov2 : (s.players a).availableTurns + DAILY_FREE_TURNS < WORD)
    (hre : Reachable s) :
    ((dailyCheckIn s a ts).isSome ↔
      (s.players a).lastCheckInTime + SECONDS_PER_DAY ≤ ts) ∧
    ((s.players a).lastCheckInTime = 0 ↔ a ∉ s.playerAddresses) ∧
    (∀ s' ev, dailyCheckIn s a ts = some (s', ev) →
      (s'.players a).availableTurns =
        (s.players a).availableTurns + DAILY_FREE_TURNS ∧
      (s'.players a).lastCheckInTime = ts ∧
      (a ∉ s.playerAddresses → s'.playerAddresses = s.playerAddresses ++ [a]) ∧
      (a ∈ s.playerAddresses → s'.playerAddresses = s.playerAddresses)) ∧
    (ts < (s.players a).lastCheckInTime + SECONDS_PER_DAY →
      dailyCheckIn s a ts = none ∧ stepEv s (Op.checkIn a ts) = (s, [])) := by
  have hbridge := reachable_bridge s hre a
  refine ⟨dailyCheckIn_isSome_iff s a ts hov1 hov2, hbridge, ?_, ?_⟩
  · intro s' ev hr
    obtain ⟨_, _, hpa, _, _, _, hreg0, hreg1⟩ := dailyCheckIn_eq_some s s' a ts ev hr
    refine ⟨by rw [hpa], by rw [hpa], ?_, ?_⟩
    · intro hnin
      exact hreg0 (hbridge.mpr hnin)
    · intro hin
      exact hreg1 (fun hz => (hbridge.mp hz) hin)
  · intro hlt
    have hn := dailyCheckIn_none_of_early s a ts hlt
    exact ⟨hn, stepEv_eq_of_none s _ (by simp [hn])⟩

/-- C2 witness: on the freshly deployed contract, a check-in by address 1 at
time 86400 is possible exactly as the cooldown predicate says. -/
theorem claim_C2_witness :
    ((dailyCheckIn (initState 0) 1 86400).isSome ↔
      ((initState 0).players 1).lastCheckInTime + SECONDS_PER_DAY ≤ 86400) ∧
    (((initState 0).players 1).lastCheckInTime = 0 ↔
      1 ∉ (initState 0).playerAddresses) :=
  ⟨(claim_C2 (initState 0) 1 86400 (by decide) (by decide) ⟨0, [], rfl⟩).1,
   (claim_C2 (initState 0) 1 86400 (by decide) (by decide) ⟨0, [], rfl⟩).2.1⟩

/-- C3: `buyTurns(count)` with attached payment `v` succeeds exactly when
`count > 0` and `v = count * TURN_PRICE` (exact match, no tolerance; side
conditions bound the checked `uint256` arithmetic); success adds exactly
`count` to `availableTurns`, and a first-time caller is appended to the
registry with `lastCheckInTime` set to the sentinel 1. -/
theorem claim_C3 (s : State) (a c v : Nat)
    (hv : v < WORD)
    (ht : (s.players a).availableTurns + c < WORD)
    (hre : Reachable s) :
    ((buyTurns s a c v).isSome ↔ 0 < c ∧ v = c * TURN_PRICE) ∧
    (∀ s' ev, buyTurns s a c v = some (s', ev) →
      (s'.players a).availableTurns = (s.players a).availableTurns + c ∧
      (a ∉ s.playerAddresses →
        s'.playerAddresses = s.playerAddresses ++ [a] ∧
        (s'.players a).lastCheckInTime = 1) ∧
      (a ∈ s.playerAddresses →
        s'.playerAddresses = s.playerAddresses ∧
        (s'.players a).lastCheckInTime = (s.players a).lastCheckInTime)) := by
  have hbridge := reachable_bridge s hre a
  refine ⟨buyTurns_isSome_iff s a c v hv ht, ?_⟩
  intro s' ev hr
  obtain ⟨_, _, _, hturns, _, _, _, _, _, hfst, hsnd⟩ :=
    buyTurns_eq_some s s' a c v ev hr
  refine ⟨hturns, ?_, ?_⟩
  · intro hnin
    obtain ⟨hl, hregg⟩ := hfst (hbridge.mpr hnin)
    exact ⟨hregg, hl⟩
  · intro hin
    obtain ⟨hl, hregg⟩ := hsnd (fun hz => (hbridge.mp hz) hin)
    exact ⟨hregg, hl⟩

/-- C3 witness: on the freshly deployed contract, buying 5 turns succeeds
exactly with the payment `5 * TURN_PRICE`. -/
theorem claim_C3_witness :
    (buyTurns (initState 0) 1 5 (5 * TURN_PRICE)).isSome ↔
      0 < 5 ∧ 5 * TURN_PRICE = 5 * TURN_PRICE :=
  (claim_C3 (initState 0) 1 5 (5 * TURN_PRICE) (by decide) (by decide)
    ⟨0, [], rfl⟩).1

/-- C4: every listed rejection (early check-in, zero-count or mispaid
purchase, play with no turns, withdraw by a non-owner or with zero balance,
ownership transfer by a non-owner or to the zero address) reverts, leaving
the full ledger state unchanged and emitting no events. -/
theorem claim_C4 (s : State) (a ts c v sc n : Nat) (ok : Bool) :
    (ts < (s.players a).lastCheckInTime + SECONDS_PER_DAY →
      stepEv s (Op.checkIn a ts) = (s, [])) ∧
    (c = 0 ∨ v ≠ c * TURN_PRICE → stepEv s (Op.buy a c v) = (s, [])) ∧
    ((s.players a).availableTurns = 0 →
      stepEv s (Op.play a) = (s, []) ∧ stepEv s (Op.drop a sc ok) = (s, [])) ∧
    (a ≠ s.owner ∨ s.balance = 0 → stepEv s (Op.withdrawOp a) = (s, [])) ∧
    (a ≠ s.owner ∨ n = 0 → stepEv s (Op.transferOwn a n) = (s, [])) := by
  refine ⟨?_, ?_, ?_, ?_, ?_⟩
  · intro h
    exact stepEv_eq_of_none s _ (by simp [dailyCheckIn_none_of_early s a ts h])
  · intro h
    rcases h with h | h
    · subst h
      exact stepEv_eq_of_none s _ (by simp [buyTurns_none_of_zero])
    · exact stepEv_eq_of_none s _ (by simp [buyTurns_none_of_mismatch s a c v h])
  · intro h
    exact ⟨stepEv_eq_of_none s _ (by simp [playTurn_none_of_zero s a h]),
      stepEv_eq_of_none s _ (by simp [dropBall_none_of_zero s a sc ok h])⟩
  · intro h
    rcases h with h | h
    · exact stepEv_eq_of_none s _ (by simp [withdraw_none_of_notOwner s a h])
    · exact stepEv_eq_of_none s _ (by simp [withdraw_none_of_zeroBalance s a h])
  · intro h
    rcases h with h | h
    · exact stepEv_eq_of_none s _
        (by simp [transferOwnership_none_of_notOwner s a n h])
    · subst h
      exact stepEv_eq_of_none s _ (by simp [transferOwnership_none_of_zeroAddr])

/-- C4 witness: on the freshly deployed contract each rejected call is a
no-op emitting nothing. -/
theorem claim_C4_witness :
    stepEv (initState 0) (Op.checkIn 1 0) = (initState 0, []) ∧
    stepEv (initState 0) (Op.buy 1 0 5) = (initState 0, []) ∧
    stepEv (initState 0) (Op.play 1) = (initState 0, []) ∧
    stepEv (initState 0) (Op.withdrawOp 1) = (initState 0, []) ∧
    stepEv (initState 0) (Op.transferOwn 1 0) = (initState 0, []) :=
  ⟨(claim_C4 (initState 0) 1 0 0 5 0 0 true).1 (by decide),
   (claim_C4 (initState 0) 1 0 0 5 0 0 true).2.1 (Or.inl rfl),
   ((claim_C4 (initState 0) 1 0 0 5 0 0 true).2.2.1 (by decide)).1,
   (claim_C4 (initState 0) 1 0 0 5 0 0 true).2.2.2.1 (Or.inl (by decide)),
   (claim_C4 (initState 0) 1 0 0 5 0 0 true).2.2.2.2 (Or.inr rfl)⟩

/-- C5 counterexample: with registry `[1, 2, 3, 4]` and `gamesPlayed`
`2, 3, 2, 3`, the contract's exchange sort returns the tied pair `(3, 2)`
before `(1, 2)` although address 1 was inserted first — the output is
descending but ties are NOT in registry insertion order. -/
theorem claim_C5_counterexample :
    stateC5.playerAddresses = [1, 2, 3, 4] ∧
    (stateC5.players 1).gamesPlayed = 2 ∧
    (stateC5.players 2).gamesPlayed = 3 ∧
    (stateC5.players 3).gamesPlayed = 2 ∧
    (stateC5.players 4).gamesPlayed = 3 ∧
    getLeaderboard stateC5 = [⟨2, 3⟩, ⟨4, 3⟩, ⟨3, 2⟩, ⟨1, 2⟩] ∧
    getLeaderboard stateC5 ≠ [⟨2, 3⟩, ⟨4, 3⟩, ⟨1, 2⟩, ⟨3, 2⟩] := by
  decide

/-- C5 (amended): `getLeaderboard` returns exactly one `(address,
gamesPlayed)` pair per registry entry (a permutation of the registry paired
with each entry's current `gamesPlayed`), sorted by `gamesPlayed` in
descending order; the relative order of entries with equal `gamesPlayed` is
not guaranteed to follow registry insertion order. -/
theorem claim_C5_amended (s : State) :
    (getLeaderboard s).Perm (mkEntries s) ∧
    (∀ m n, m < n → n < (getLeaderboard s).length →
      gp (getLeaderboard s) n ≤ gp (getLeaderboard s) m) :=
  ⟨getLeaderboard_perm s, getLeaderboard_sorted s⟩

/-- C5 witness: on a concrete two-player state the leaderboard is a
permutation of the entries and position 0 dominates position 1. -/
theorem claim_C5_witness :
    (getLeaderboard twoState).Perm (mkEntries twoState) ∧
    gp (getLeaderboard twoState) 1 ≤ gp (getLeaderboard twoState) 0 :=
  ⟨(claim_C5_amended twoState).1,
   (claim_C5_amended twoState).2 0 1 (by decide) (by decide)⟩

/-- C6: in every reachable state the registry `playerAddresses` is
duplicate-free — no sequence of operations appends the same address twice. -/
theorem claim_C6 (s : State) (hre : Reachable s) :
    s.playerAddresses.Nodup :=
  (reachable_inv s hre).1

/-- C6 witness: the registry of the concrete reachable state `demoState`
is duplicate-free. -/
theorem claim_C6_witness : demoState.playerAddresses.Nodup :=
  claim_C6 demoState ⟨0, [Op.checkIn 1 86400], rfl⟩

/-- C7: across two consecutive successful `dailyCheckIn` calls by the same
account (no successful check-in by that account in between), the recorded
`lastCheckInTime` values are the two call timestamps, the later exceeds the
earlier by at least the 86400-second cooldown, and is strictly greater. -/
theorem claim_C7 (s s1 s2 : State) (a t1 t2 : Nat) (ev1 ev2 : List Event)
    (ops : List Op)
    (h1 : dailyCheckIn s a t1 = some (s1, ev1))
    (hmid : NoSuccCheckIn a s1 ops)
    (h2 : dailyCheckIn (exec s1 ops) a t2 = some (s2, ev2)) :
    (s1.players a).lastCheckInTime = t1 ∧
    (s2.players a).lastCheckInTime = t2 ∧
    t1 + SECONDS_PER_DAY ≤ t2 ∧ t1 < t2 := by
  obtain ⟨hts1, _, hpa1, _⟩ := dailyCheckIn_eq_some s s1 a t1 ev1 h1
  have hl1 : (s1.players a).lastCheckInTime = t1 := by rw [hpa1]
  have h86 : SECONDS_PER_DAY = 86400 := rfl
  have ht1pos : t1 ≠ 0 := by omega
  have hkeep : ((exec s1 ops).players a).lastCheckInTime = t1 := by
    rw [exec_last_keep ops s1 a (by rw [hl1]; exact ht1pos) hmid, hl1]
  obtain ⟨hts2, _, hpa2, _⟩ := dailyCheckIn_eq_some (exec s1 ops) s2 a t2 ev2 h2
  have hl2 : (s2.players a).lastCheckInTime = t2 := by rw [hpa2]
  rw [hkeep] at hts2
  exact ⟨hl1, hl2, hts2, by omega⟩

/-- C7 witness: address 1 checks in at 86400 and again at 172800; the
recorded times are 86400 and 172800, one full cooldown apart. -/
theorem claim_C7_witness :
    (demoState.players 1).lastCheckInTime = 86400 ∧
    (demoCheck2.players 1).lastCheckInTime = 172800 ∧
    86400 + SECONDS_PER_DAY ≤ 172800 ∧ 86400 < 172800 :=
  claim_C7 (initState 0) demoState demoCheck2 1 86400 172800
    [Event.CheckedIn 1 3 86400] [Event.CheckedIn 1 3 172800] []
    rfl trivial rfl

/-- C8 counterexample: for a never-interacted address, `canCheckIn` is NOT
true at every current time — at time 0 (more generally any time below
86400) it returns `false`, while `getPlayerInfo` does return `(0, 0, 0)`. -/
theorem claim_C8_counterexample :
    getPlayerInfo (initState 0) 1 = (0, 0, 0) ∧
    canCheckIn (initState 0) 1 0 = false := by
  decide

/-- C8 (amended): for every address that has never interacted,
`getPlayerInfo` returns `(0, 0, 0)` (and, being total, never errors), and
`canCheckIn` returns `true` at every current time of at least 86400 (one
cooldown past the zero epoch) and `false` at every earlier current time. -/
theorem claim_C8_amended (d : Addr) (ops : List Op) (a : Addr) (t : Nat)
    (ha : ∀ op ∈ ops, op.sender ≠ a) :
    getPlayerInfo (exec (initState d) ops) a = (0, 0, 0) ∧
    (SECONDS_PER_DAY ≤ t → canCheckIn (exec (initState d) ops) a t = true) ∧
    (t < SECONDS_PER_DAY → canCheckIn (exec (initState d) ops) a t = false) := by
  have hp : (exec (initState d) ops).players a = ⟨0, 0, 0, 0⟩ := by
    rw [exec_players_other ops (initState d) a ha]
    rfl
  refine ⟨by simp [getPlayerInfo, hp], ?_, ?_⟩
  · intro ht
    simp only [canCheckIn, hp, decide_eq_true_eq]
    omega
  · intro ht
    simp only [canCheckIn, hp]
    apply decide_eq_false
    show ¬ ((0 : Nat) + SECONDS_PER_DAY ≤ t)
    omega

/-- C8 witness: address 2 never appears in the trace, so it reads
`(0, 0, 0)`, can check in at time 86400, and cannot at time 86399. -/
theorem claim_C8_witness :
    getPlayerInfo (exec (initState 0) [Op.checkIn 1 86400]) 2 = (0, 0, 0) ∧
    canCheckIn (exec (initState 0) [Op.checkIn 1 86400]) 2 86400 = true ∧
    canCheckIn (exec (initState 0) [Op.checkIn 1 86400]) 2 86399 = false :=
  ⟨(claim_C8_amended 0 [Op.checkIn 1 86400] 2 86400 (by decide)).1,
   (claim_C8_amended 0 [Op.checkIn 1 86400] 2 86400 (by decide)).2.1 (by decide),
   (claim_C8_amended 0 [Op.checkIn 1 86400] 2 86399 (by decide)).2.2 (by decide)⟩

/-- C9 counterexample: a purchase does impose a (one-time-unit) check-in
cooldown: after address 1 buys a turn, `canCheckIn` at time 86400 is
`false` (sentinel 1 + 86400 > 86400), while a never-interacted address can
check in at that very time — so "true immediately after the purchase" fails
at purchase times below 86401. -/
theorem claim_C9_counterexample :
    (buyState.players 1).lastCheckInTime = 1 ∧
    canCheckIn buyState 1 86400 = false ∧
    canCheckIn (initState 0) 1 86400 = true := by
  decide

/-- C9 (amended): for an account whose `lastCheckInTime` holds the
purchase sentinel 1, `canCheckIn` is true at every time from 86401 on (at
most one time unit later than for a never-interacted account), and its
first `dailyCheckIn` at such a time succeeds and grants the 3 free turns. -/
theorem claim_C9_amended (s : State) (a t : Nat)
    (hsent : (s.players a).lastCheckInTime = 1)
    (ht : 1 + SECONDS_PER_DAY ≤ t)
    (hov : (s.players a).availableTurns + DAILY_FREE_TURNS < WORD) :
    canCheckIn s a t = true ∧
    ∃ s' ev, dailyCheckIn s a t = some (s', ev) ∧
      (s'.players a).availableTurns =
        (s.players a).availableTurns + DAILY_FREE_TURNS := by
  constructor
  · simp only [canCheckIn, hsent, decide_eq_true_eq]
    omega
  · have hs : (dailyCheckIn s a t).isSome := by
      rw [dailyCheckIn_isSome_iff s a t (by rw [hsent]; decide) hov, hsent]
      exact ht
    obtain ⟨⟨s', ev⟩, hr⟩ := Option.isSome_iff_exists.mp hs
    refine ⟨s', ev, hr, ?_⟩
    obtain ⟨_, _, hpa, _⟩ := dailyCheckIn_eq_some s s' a t ev hr
    rw [hpa]

/-- C9 witness: after the concrete purchase, address 1 can check in at
time 86401 and the check-in then grants 3 turns. -/
theorem claim_C9_witness :
    canCheckIn buyState 1 86401 = true ∧
    ∃ s' ev, dailyCheckIn buyState 1 86401 = some (s', ev) ∧
      (s'.players 1).availableTurns =
        (buyState.players 1).availableTurns + DAILY_FREE_TURNS :=
  claim_C9_amended buyState 1 86401 (by decide) (by decide) (by decide)

/-- C10: in every reachable state, an address holding a turn or having
played a game is in the registry, and therefore contributes an entry to
`getLeaderboard` (and is counted by `getTotalPlayers`). -/
theorem claim_C10 (s : State) (hre : Reachable s) (a : Addr)
    (h : 0 < (s.players a).availableTurns ∨ 0 < (s.players a).gamesPlayed) :
    a ∈ s.playerAddresses ∧
    (⟨a, (s.players a).gamesPlayed⟩ : LeaderboardEntry) ∈ getLeaderboard s := by
  obtain ⟨_, hmem, hzero⟩ := reachable_inv s hre
  have hlast : (s.players a).lastCheckInTime ≠ 0 := by
    intro hz
    obtain ⟨h1, h2⟩ := hzero a hz
    rcases h with h | h <;> omega
  have hin : a ∈ s.playerAddresses := (hmem a).mpr hlast
  refine ⟨hin, ?_⟩
  have hentry : (⟨a, (s.players a).gamesPlayed⟩ : LeaderboardEntry) ∈ mkEntries s := by
    simp only [mkEntries, List.mem_map]
    exact ⟨a, hin, rfl⟩
  exact (getLeaderboard_perm s).mem_iff.mpr hentry

/-- C10 witness: in `demoState`, address 1 holds 3 turns and accordingly
appears in the registry and on the leaderboard. -/
theorem claim_C10_witness :
    1 ∈ demoState.playerAddresses ∧
    (⟨1, (demoState.players 1).gamesPlayed⟩ : LeaderboardEntry) ∈
      getLeaderboard demoState :=
  claim_C10 demoState ⟨0, [Op.checkIn 1 86400], rfl⟩ 1 (Or.inl (by decide))

end Plinko
